import Mathlib

/-!
Verification of the hazelcast-rust-client wire-protocol layer.

The development shallowly embeds the frame/message binary format
(src/client/src/remote/message.rs), the codec primitives
(src/client/src/codec/util.rs), and the connection multiplexer's
egress/ingress state transitions (src/client/src/remote/channel.rs).
Byte buffers are lists of naturals (each < 256); machine integers are
naturals reduced modulo 2 to the width where the code overflows; code
that aborts at runtime is modelled with Option, a none result standing
for the abort.
-/

namespace Hazelcast

/-! ## Byte-buffer primitives (the bytes crate / Writer and Reader traits)

The client crate's codec module with the Writer and Reader trait
implementations is not part of the sources; per the specification all
fixed-width numerics are written and read little-endian (spec section
4.2), which the in-tree tests of message.rs pin down byte-for-byte. -/

/-- Modelled from the spec: little-endian encoding of a fixed-width numeric
(`write_to` of the missing Writer trait impls) — w bytes, least significant
first, value truncated modulo 2^(8w) as the Rust integer type would be. -/
def toLE : Nat → Nat → List Nat
  | 0, _ => []
  | w + 1, n => n % 256 :: toLE w (n / 256)

/-- Little-endian value of a byte list (`read_u16/u32/u64` and `get_*_le`). -/
def fromLE : List Nat → Nat
  | [] => 0
  | b :: rest => b + 256 * fromLE rest

/-- Big-endian value of a byte list (the bytes crate's plain `get_u64`,
used by encode_uuid on the uuid's byte representation). -/
def fromBE : List Nat → Nat
  | [] => 0
  | b :: rest => b * 256 ^ rest.length + fromBE rest

/-- Big-endian encoding: most significant byte first. -/
def toBE (w n : Nat) : List Nat := (toLE w n).reverse

/-- Modelled from the spec: reading a w-byte little-endian numeric off the
front of a buffer; reading past the end of the buffer is a runtime abort in
the Rust bytes crate, rendered as none. -/
def readLE (w : Nat) (b : List Nat) : Option (Nat × List Nat) :=
  if w ≤ b.length then some (fromLE (b.take w), b.drop w) else none

/-- BytesMut::split_to k: severs the first k bytes; aborts (none) when the
buffer is shorter than k. -/
def splitTo (k : Nat) (b : List Nat) : Option (List Nat × List Nat) :=
  if k ≤ b.length then some (b.take k, b.drop k) else none

/-- Modelled from the spec: reading one boolean byte (`bool::read_from` of
the missing Reader impls) — one byte, nonzero meaning true. -/
def readBool (b : List Nat) : Option (Bool × List Nat) :=
  match b with
  | [] => none
  | x :: rest => some (x ≠ 0, rest)

/-- Modelled from the spec: writing one boolean byte (`bool::write_to` of
the missing Writer impls) — 1 for true, 0 for false. -/
def writeBool (b : Bool) : List Nat := [if b then 1 else 0]

/-- A byte list all of whose entries are in range. -/
def BytesOk (l : List Nat) : Prop := ∀ b ∈ l, b < 256

instance (l : List Nat) : Decidable (BytesOk l) := by
  unfold BytesOk; infer_instance

/-! ## Flag constants and frame model (src/client/src/remote/message.rs) -/

def DEFAULT_FLAGS : Nat := 0
def BEGIN_FRAGMENT_FLAG : Nat := 2 ^ 15
def END_FRAGMENT_FLAG : Nat := 2 ^ 14
def IS_FINAL_FLAG : Nat := 2 ^ 13
def UNFRAGMENTED_MESSAGE : Nat := Nat.lor BEGIN_FRAGMENT_FLAG END_FRAGMENT_FLAG
def END_DATA_STRUCTURE_FLAG : Nat := 2 ^ 11
def BEGIN_DATA_STRUCTURE_FLAG : Nat := 2 ^ 12
def IS_NULL_FLAG : Nat := 2 ^ 10

def FLAGS_LENGTH : Nat := 2
def FRAME_LENGTH : Nat := 4
def MESSAGE_TYPE_LENGTH : Nat := 4
def CORRELATION_ID_LENGTH : Nat := 8
def HEADER_LENGTH : Nat := 18

/-- is_flag_set: (flags & mask) == mask. -/
def is_flag_set (flags mask : Nat) : Bool := Nat.land flags mask == mask

/-- The Frame struct of message.rs: a content buffer, a 16-bit flag bitmask,
and — meaningful only when is_first is set — a message type (r#type in the
source, mtype here) and correlation id (field id in the source, cid here). -/
structure Frame where
  content : List Nat
  flags : Nat
  mtype : Nat
  cid : Nat
  is_first : Bool
deriving DecidableEq

/-- Frame::new — intended for non-initial frames; type and id stay 0 and
is_first stays false. -/
def Frame.new (content : List Nat) (flags : Nat) : Frame :=
  ⟨content, flags, 0, 0, false⟩

/-- Frame::initial_frame — content begins with the little-endian 4-byte
message type and 8-byte correlation id. -/
def Frame.initial_frame (flags mtype cid : Nat) : Frame :=
  ⟨toLE 4 mtype ++ toLE 8 cid, flags, mtype, cid, true⟩

/-- Frame::append_content. -/
def Frame.append_content (f : Frame) (c : List Nat) : Frame :=
  { f with content := f.content ++ c }

def Frame.is_end_frame (f : Frame) : Bool :=
  is_flag_set f.flags END_DATA_STRUCTURE_FLAG

def Frame.is_begin_frame (f : Frame) : Bool :=
  is_flag_set f.flags BEGIN_DATA_STRUCTURE_FLAG

def Frame.is_null_frame (f : Frame) : Bool :=
  is_flag_set f.flags IS_NULL_FLAG

/-- Frame::id — returns the correlation id iff this is the first frame;
on any other frame the source aborts the task, rendered as none. -/
def Frame.id (f : Frame) : Option Nat :=
  if f.is_first then some f.cid else none

/-- Frame::r#type — returns the message type iff this is the first frame;
on any other frame the source aborts the task, rendered as none. -/
def Frame.rtype (f : Frame) : Option Nat :=
  if f.is_first then some f.mtype else none

/-- Frame::payload — the wire body: the 2-byte little-endian flags, with the
final-message bit OR'ed in when is_final is passed, followed by the content.
The length prefix is added by the transport framer, not here. -/
def Frame.payload (f : Frame) (is_final : Bool) : List Nat :=
  toLE 2 (if is_final then Nat.lor f.flags IS_FINAL_FLAG else f.flags)
    ++ f.content

/-- Frame::from(raw_bytes, is_first) — parses a frame body: 2-byte LE flags,
then, when is_first, a 4-byte LE type and 8-byte LE correlation id rebuilt
through initial_frame with the remaining bytes appended; otherwise the rest
is the content of a plain frame. Truncated input aborts (none). -/
def Frame.fromBytes (content : List Nat) (is_first : Bool) : Option Frame :=
  match readLE 2 content with
  | none => none
  | some (flags, r1) =>
    if is_first then
      match readLE 4 r1 with
      | none => none
      | some (mtype, r2) =>
        match readLE 8 r2 with
        | none => none
        | some (cid, r3) =>
          some ((Frame.initial_frame flags mtype cid).append_content r3)
    else
      some (Frame.new r1 flags)

/-! ## Message model (src/client/src/remote/message.rs) -/

/-- The Message struct: correlation id, operation type, ordered frames. -/
structure Message where
  id : Nat
  mtype : Nat
  frames : List Frame
deriving DecidableEq

/-- Message::new — one initial frame. -/
def Message.new (id mtype : Nat) (initial : Frame) : Message :=
  ⟨id, mtype, [initial]⟩

/-- Message::add — push a frame at the back. -/
def Message.add (m : Message) (f : Frame) : Message :=
  { m with frames := m.frames ++ [f] }

/-- The frame-parsing loop of `impl From<BytesMut> for Message`: read a
4-byte LE length (counting itself and the 2-byte flags), a 2-byte LE flags
field, then length − 6 content bytes; append the frame and stop after a
frame whose flags carry IS_FINAL. The fuel argument bounds the number of
iterations; each iteration consumes at least 6 bytes, so fuel equal to the
buffer length always suffices. -/
def framesLoop : Nat → List Nat → List Frame → Option (List Frame)
  | _, [], acc => some acc
  | 0, _ :: _, _ => none
  | fuel + 1, b :: bs, acc =>
    match readLE 4 (b :: bs) with
    | none => none
    | some (len, r1) =>
      match readLE 2 r1 with
      | none => none
      | some (flags, r2) =>
        if len < FRAME_LENGTH + FLAGS_LENGTH then none
        else
          match splitTo (len - (FRAME_LENGTH + FLAGS_LENGTH)) r2 with
          | none => none
          | some (content, r3) =>
            let acc' := acc ++ [Frame.new content flags]
            if is_flag_set flags IS_FINAL_FLAG then some acc'
            else framesLoop fuel r3 acc'

/-- impl From<BytesMut> for Message: parse the initial frame — 4-byte LE
length, 2-byte LE flags, 4-byte LE message type, 8-byte LE correlation id,
then length − 18 further content bytes — and hand the remaining buffer to
the frame loop. Underflow or truncation aborts (none). -/
def Message.fromBytes (b : List Nat) : Option Message :=
  match readLE 4 b with
  | none => none
  | some (init_len, r1) =>
    match readLE 2 r1 with
    | none => none
    | some (init_flags, r2) =>
      match readLE 4 r2 with
      | none => none
      | some (mtype, r3) =>
        match readLE 8 r3 with
        | none => none
        | some (id, r4) =>
          if init_len < HEADER_LENGTH then none
          else
            match splitTo (init_len - HEADER_LENGTH) r4 with
            | none => none
            | some (init_content, r5) =>
              let init_frame :=
                (Frame.initial_frame init_flags mtype id).append_content
                  init_content
              match framesLoop r5.length r5 [] with
              | none => none
              | some fs => some ⟨id, mtype, init_frame :: fs⟩

/-! ## UTF-8 validity (std::str::from_utf8)

decode_string aborts when the frame content is not valid UTF-8. The
validator below is the RFC 3629 well-formedness check that the Rust
standard library implements: overlong forms, surrogate code points and
values above U+10FFFF are rejected. -/

/-- A UTF-8 continuation byte: 0x80 to 0xBF. -/
def isCont (b : Nat) : Bool := decide (0x80 ≤ b ∧ b ≤ 0xBF)

/-- Admissible second byte of a three-byte sequence with lead byte b. -/
def utf8Second3 (b c1 : Nat) : Bool :=
  if b == 0xE0 then decide (0xA0 ≤ c1 ∧ c1 ≤ 0xBF)
  else if b == 0xED then decide (0x80 ≤ c1 ∧ c1 ≤ 0x9F)
  else isCont c1

/-- Admissible second byte of a four-byte sequence with lead byte b. -/
def utf8Second4 (b c1 : Nat) : Bool :=
  if b == 0xF0 then decide (0x90 ≤ c1 ∧ c1 ≤ 0xBF)
  else if b == 0xF4 then decide (0x80 ≤ c1 ∧ c1 ≤ 0x8F)
  else isCont c1

/-- RFC 3629 UTF-8 well-formedness of a byte list. -/
def validUtf8 : List Nat → Bool
  | [] => true
  | b :: rest =>
    if b < 0x80 then validUtf8 rest
    else if b < 0xC2 then false
    else if b ≤ 0xDF then
      match rest with
      | c1 :: r => isCont c1 && validUtf8 r
      | [] => false
    else if b ≤ 0xEF then
      match rest with
      | c1 :: c2 :: r => utf8Second3 b c1 && isCont c2 && validUtf8 r
      | _ => false
    else if b ≤ 0xF4 then
      match rest with
      | c1 :: c2 :: c3 :: r =>
        utf8Second4 b c1 && isCont c2 && isCont c3 && validUtf8 r
      | _ => false
    else false

/-! ## Codec primitives (src/client/src/codec/util.rs)

A Rust String value is represented by the list of its UTF-8 bytes, which
is valid UTF-8 by construction; a Uuid value by the list of its 16 bytes
in textual (big-endian) order, matching uuid::Uuid::as_bytes. Decoders
walk the frame iterator as a frame-list cursor: a decoder returns the
decoded value together with the frames left for the next decoder, and
none when the source decoder aborts the task. -/

/-- encode_string: the string's raw UTF-8 bytes become the whole content of
one frame with default flags (BytesMut::into builds Frame::new with
DEFAULT_FLAGS). -/
def encode_string (m : Message) (value : List Nat) : Message :=
  m.add (Frame.new value DEFAULT_FLAGS)

/-- decode_string: take the next frame (missing frame aborts) and parse its
whole content as UTF-8, aborting on invalid bytes. -/
def decode_string (frames : List Frame) : Option (List Nat × List Frame) :=
  match frames with
  | [] => none
  | f :: rest =>
    if validUtf8 f.content then some (f.content, rest) else none

/-- encode_nullable: a present value runs the element encoder; an absent
value appends one empty frame with the null bit set. -/
def encode_nullable {α : Type} (m : Message) (value : Option α)
    (encoder : Message → α → Message) : Message :=
  match value with
  | some v => encoder m v
  | none => m.add (Frame.new [] IS_NULL_FLAG)

/-- decode_nullable: peek at the next frame — an exhausted iterator yields
None (the ? operator), a null frame yields None while leaving the frame in
place (peek does not advance), anything else runs the element decoder. The
outer Option models an abort inside the element decoder. -/
def decode_nullable {α : Type} (frames : List Frame)
    (decoder : List Frame → Option (α × List Frame)) :
    Option (Option α × List Frame) :=
  match frames with
  | [] => some (none, [])
  | f :: rest =>
    if f.is_null_frame then some (none, f :: rest)
    else
      match decoder (f :: rest) with
      | none => none
      | some (v, rest') => some (some v, rest')

/-- encode_list: an empty begin-marker frame, one encoded unit per element
in order, an empty end-marker frame. -/
def encode_list {α : Type} (m : Message) (list : List α)
    (encoder : Message → α → Message) : Message :=
  (list.foldl encoder
      (m.add (Frame.new [] BEGIN_DATA_STRUCTURE_FLAG))).add
    (Frame.new [] END_DATA_STRUCTURE_FLAG)

/-- Modelled from the spec: the list decoder (absent from the sources; spec
section 4.2: decode drains until the matching end marker) — consume the
begin-marker frame, then repeatedly run the element decoder until the next
frame carries the end-data-structure bit, consuming that end marker. Fuel
equal to the frame count suffices since every element consumes a frame. -/
def decodeListLoop {α : Type}
    (decoder : List Frame → Option (α × List Frame)) :
    Nat → List Frame → Option (List α × List Frame)
  | _, [] => none
  | 0, _ :: _ => none
  | fuel + 1, f :: rest =>
    if f.is_end_frame then some ([], rest)
    else
      match decoder (f :: rest) with
      | none => none
      | some (x, rest') =>
        match decodeListLoop decoder fuel rest' with
        | none => none
        | some (xs, rest'') => some (x :: xs, rest'')

/-- Modelled from the spec: decode_list — skip the begin-marker frame and
drain elements until the matching end marker. -/
def decode_list {α : Type} (frames : List Frame)
    (decoder : List Frame → Option (α × List Frame)) :
    Option (List α × List Frame) :=
  match frames with
  | [] => none
  | _ :: rest => decodeListLoop decoder rest.length rest

/-- encode_uuid: a zero not-null marker byte, then the most-significant
8 bytes of the uuid read big-endian and written little-endian, then the
least-significant 8 bytes likewise (util.rs lines 53-60). -/
def encode_uuid (writeable : List Nat) (uuid : List Nat) : List Nat :=
  let msb := fromBE (uuid.take 8)
  let lsb := fromBE ((uuid.drop 8).take 8)
  writeable ++ [0] ++ toLE 8 msb ++ toLE 8 lsb

/-- Modelled from the spec: Uuid::read_from of the missing Reader impls —
reads the least-significant 64-bit half first, then the most-significant
half, both little-endian, and rebuilds the uuid's 16 bytes most-significant
half first (spec section 6: decode reads least-significant half, then
most-significant half). -/
def uuidReadFrom (b : List Nat) : Option (List Nat × List Nat) :=
  match readLE 8 b with
  | none => none
  | some (lsb, r1) =>
    match readLE 8 r1 with
    | none => none
    | some (msb, r2) => some (toBE 8 msb ++ toBE 8 lsb, r2)

/-- decode_uuid: read the is-null byte (true yields None), then a u64 the
source names lsb, then a u64 it names msb; write msb then lsb into a fresh
16-byte buffer little-endian and let Uuid::read_from rebuild the uuid from
that buffer (util.rs lines 62-73). -/
def decode_uuid (readable : List Nat) :
    Option (Option (List Nat) × List Nat) :=
  match readBool readable with
  | none => none
  | some (true, rest) => some (none, rest)
  | some (false, rest) =>
    match readLE 8 rest with
    | none => none
    | some (lsb, r1) =>
      match readLE 8 r1 with
      | none => none
      | some (msb, r2) =>
        match uuidReadFrom (toLE 8 msb ++ toLE 8 lsb) with
        | none => none
        | some (u, _) => some (some u, r2)

/-! ## Typed response conversion (impl TryFrom of R for Message)

The generic failure payload (src/client/src/messaging/error.rs). Strings
are byte lists as elsewhere; Exception::read_from is the in-tree stub that
ignores its payload and fills fixed values. -/

structure StackTraceEntry where
  declaring_class : List Nat
  method_name : List Nat
  file_name : Option (List Nat)
  line_number : Nat
deriving DecidableEq

structure Exception where
  code : Int
  class_name : List Nat
  message : Option (List Nat)
  stack_trace : List StackTraceEntry
  cause_error_code : Nat
  cause_class_name : Option (List Nat)
deriving DecidableEq

/-- Exception::r#type — the generic failure type 0x0 (the r#type = 0x0
attribute of the Response derive). -/
def Exception.rtype : Nat := 0x0

/-- Exception::read_from — the in-tree stub: the payload is ignored. -/
def Exception.read_from (_payload : List Nat) : Exception :=
  ⟨-1, [], none, [], 0, none⟩

/-- Result of converting a Message into an expected typed response. -/
inductive TryFromResult (R : Type) where
  | ok : R → TryFromResult R
  | serverFailure : Exception → TryFromResult R
deriving DecidableEq

/-- impl TryFrom of R for Message (message.rs lines 68-89): a matching
declared type runs the response decoder; a mismatching type must equal the
generic failure type 0x0 — any other type trips the assert and aborts
(none) — and then the first frame's non-final wire payload is decoded as
an Exception surfaced as a server-failure result. -/
def Message.tryInto {R : Type} (m : Message) (expected : Nat)
    (decoder : Message → R) : Option (TryFromResult R) :=
  if m.mtype = expected then some (TryFromResult.ok (decoder m))
  else if m.mtype = Exception.rtype then
    match m.frames.head? with
    | none => none
    | some f =>
      some (TryFromResult.serverFailure (Exception.read_from (f.payload false)))
  else none

/-! ## Channel multiplexer state machine (src/client/src/remote/channel.rs)

The coordinating loop owns the correlation table (a HashMap from
correlation id to the caller's response sink) and the active-correlation
cursor. Sinks are opaque tokens. The HashMap is modelled as an association
list whose insert replaces an existing binding and whose remove drops the
binding, matching HashMap::insert and HashMap::remove on the unique-key
tables reachable from the empty one. -/

def NO_CORRELATION : Nat := 0

/-- Correlation-table lookup (HashMap::get). -/
def lookupCorr : List (Nat × Nat) → Nat → Option Nat
  | [], _ => none
  | (k, v) :: rest, key => if k = key then some v else lookupCorr rest key

/-- Correlation-table insert (HashMap::insert): replace or append. -/
def insertCorr : List (Nat × Nat) → Nat → Nat → List (Nat × Nat)
  | [], key, v => [(key, v)]
  | (k, w) :: rest, key, v =>
    if k = key then (key, v) :: rest else (k, w) :: insertCorr rest key v

/-- Correlation-table remove (HashMap::remove): drop the binding. -/
def removeCorr (t : List (Nat × Nat)) (key : Nat) : List (Nat × Nat) :=
  t.filter (fun p => p.1 ≠ key)

/-- The loop-local state of Channel::connect: the correlation table and the
active-correlation cursor. -/
structure ChannelState where
  correlations : List (Nat × Nat)
  active : Nat
deriving DecidableEq

/-- The sequence of wire payloads the egress branch writes for a message's
frames: peeking ahead, every frame but the last is written with
payload(false) and the last with payload(true). -/
def writePayloads : List Frame → List (List Nat)
  | [] => []
  | [f] => [f.payload true]
  | f :: g :: rest => f.payload false :: writePayloads (g :: rest)

/-- The egress branch (channel.rs lines 53-63): write every frame of the
message in order, only the last marked final, then register correlation
id to sink in the table. Returns the wire payloads and the new state. -/
def egressStep (st : ChannelState) (m : Message) (sink : Nat) :
    List (List Nat) × ChannelState :=
  (writePayloads m.frames,
    { st with correlations := insertCorr st.correlations m.id sink })

/-- The ingress branch (channel.rs lines 64-89): parse the raw frame bytes,
as a first frame exactly when no correlation is active; a first frame
activates its correlation id and is forwarded to the looked-up sink; a
non-first frame is forwarded to the active sink, and when it bears the
final-message bit the table entry is removed and the cursor cleared. A
missing correlation aborts the loop (none), as does a truncated frame. -/
def ingressStep (st : ChannelState) (frame_bytes : List Nat) :
    Option (ChannelState × Nat × Frame) :=
  match Frame.fromBytes frame_bytes (st.active == NO_CORRELATION) with
  | none => none
  | some fr =>
    if fr.is_first then
      match fr.id with
      | none => none
      | some cid =>
        match lookupCorr st.correlations cid with
        | none => none
        | some sink => some ({ st with active := cid }, sink, fr)
    else if is_flag_set fr.flags IS_FINAL_FLAG then
      match lookupCorr st.correlations st.active with
      | none => none
      | some sink =>
        some (⟨removeCorr st.correlations st.active, NO_CORRELATION⟩,
          sink, fr)
    else
      match lookupCorr st.correlations st.active with
      | none => none
      | some sink => some (st, sink, fr)

/-! ## Member request sequencer (src/client/src/remote/member.rs) -/

/-- The sequencer starts at zero (AtomicUsize::new(0) in Sender::new). -/
def Sender.initialSequencer : Nat := 0

/-- Sender::send draws the correlation id with fetch_add(1): the id is the
current counter and the counter advances by one. -/
def Sender.nextId (sequencer : Nat) : Nat × Nat := (sequencer, sequencer + 1)

/-! ## Concrete wire data used by the in-tree tests -/

/-- The byte representation (uuid::Uuid::as_bytes order) of UUID
eb66c416-4739-465b-9af3-9dc33ed8eef9. -/
def uuidSample : List Nat :=
  [0xEB, 0x66, 0xC4, 0x16, 0x47, 0x39, 0x46, 0x5B,
   0x9A, 0xF3, 0x9D, 0xC3, 0x3E, 0xD8, 0xEE, 0xF9]

/-- The literal 6-frame byte sequence of the in-tree test
should_convert_to_message_from_bytes (spec section 8): initial frame,
begin-data marker, nested record, string field, end-data marker, final
string frame. -/
def sampleBytes : List Nat :=
  [0x3c, 0x00, 0x00, 0x00, 0x00, 0xc0, 0x01, 0x01,
   0x00, 0x00, 0x00, 0x00, 0x00, 0x00, 0x00, 0x00,
   0x00, 0x00, 0x00, 0x00, 0x00, 0xff, 0x49, 0x2e,
   0xc0, 0x97, 0x9d, 0xeb, 0x37, 0x13, 0x85, 0xb8,
   0xc3, 0xd9, 0x54, 0xd6, 0x8b, 0x01, 0x0f, 0x01,
   0x00, 0x00, 0x00, 0x2e, 0x4f, 0x78, 0x21, 0x19,
   0x50, 0xcf, 0x85, 0xdd, 0x08, 0xb9, 0xcc, 0xff,
   0x94, 0x70, 0x85, 0x00,
   0x06, 0x00, 0x00, 0x00, 0x00, 0x10,
   0x0a, 0x00, 0x00, 0x00, 0x00, 0x00, 0x45, 0x16,
   0x00, 0x00,
   0x10, 0x00, 0x00, 0x00, 0x00, 0x00, 0x31, 0x30,
   0x2e, 0x30, 0x2e, 0x30, 0x2e, 0x31, 0x39, 0x31,
   0x06, 0x00, 0x00, 0x00, 0x00, 0x08,
   0x12, 0x00, 0x00, 0x00, 0x00, 0x20, 0x35, 0x2e,
   0x30, 0x2d, 0x53, 0x4e, 0x41, 0x50, 0x53, 0x48,
   0x4f, 0x54]

/-- Keys of the correlation table, used for the uniqueness invariant. -/
def corrKeys (t : List (Nat × Nat)) : List Nat := t.map Prod.fst

@[simp] theorem length_toLE (w n : Nat) : (toLE w n).length = w := by
  induction w generalizing n with
  | zero => rfl
  | succ w ih => simp [toLE, ih]

theorem fromLE_toLE {w n : Nat} (h : n < 256 ^ w) : fromLE (toLE w n) = n := by
  induction w generalizing n with
  | zero =>
    simp [Nat.pow_zero, Nat.lt_one_iff] at h
    simp [toLE, fromLE, h]
  | succ w ih =>
    have hdiv : n / 256 < 256 ^ w := by
      rw [Nat.div_lt_iff_lt_mul (by norm_num : 0 < 256)]
      calc n < 256 ^ (w + 1) := h
        _ = 256 ^ w * 256 := by ring
    simp [toLE, fromLE, ih hdiv, Nat.mod_add_div]

theorem toLE_fromLE {l : List Nat} (h : BytesOk l) :
    toLE l.length (fromLE l) = l := by
  induction l with
  | nil => rfl
  | cons b rest ih =>
    have hb : b < 256 := h b (List.mem_cons_self b rest)
    have hrest : BytesOk rest := fun x hx => h x (List.mem_cons_of_mem b hx)
    have hmod : (b + 256 * fromLE rest) % 256 = b := by
      rw [Nat.add_mul_mod_self_left, Nat.mod_eq_of_lt hb]
    have hdiv : (b + 256 * fromLE rest) / 256 = fromLE rest := by
      rw [Nat.add_mul_div_left _ _ (by norm_num : 0 < 256),
        Nat.div_eq_of_lt hb, Nat.zero_add]
    simp [fromLE, toLE, hmod, hdiv, ih hrest]

theorem fromLE_lt {l : List Nat} (h : BytesOk l) :
    fromLE l < 256 ^ l.length := by
  induction l with
  | nil => simp [fromLE]
  | cons b rest ih =>
    have hb : b < 256 := h b (List.mem_cons_self b rest)
    have hrest : BytesOk rest := fun x hx => h x (List.mem_cons_of_mem b hx)
    calc b + 256 * fromLE rest
        ≤ 255 + 256 * fromLE rest := by omega
      _ < 256 * (fromLE rest + 1) := by omega
      _ ≤ 256 * 256 ^ rest.length := by
          have := ih hrest; omega
      _ = 256 ^ (b :: rest).length := by
          simp [List.length_cons, Nat.pow_succ]; ring

theorem fromLE_append_singleton (l : List Nat) (b : Nat) :
    fromLE (l ++ [b]) = fromLE l + b * 256 ^ l.length := by
  induction l with
  | nil => simp [fromLE]
  | cons c t ih => simp [fromLE, ih, Nat.pow_succ]; ring

theorem fromBE_eq_fromLE_reverse (l : List Nat) :
    fromBE l = fromLE l.reverse := by
  induction l with
  | nil => rfl
  | cons b rest ih =>
    simp [fromBE, List.reverse_cons, fromLE_append_singleton, ih]
    ring

theorem toBE_fromBE {l : List Nat} (h : BytesOk l) :
    toBE l.length (fromBE l) = l := by
  have hrev : BytesOk l.reverse := fun x hx => h x (List.mem_reverse.mp hx)
  have : toLE l.reverse.length (fromLE l.reverse) = l.reverse :=
    toLE_fromLE hrev
  calc toBE l.length (fromBE l)
      = (toLE l.length (fromLE l.reverse)).reverse := by
        rw [toBE, fromBE_eq_fromLE_reverse]
    _ = (toLE l.reverse.length (fromLE l.reverse)).reverse := by
        rw [List.length_reverse]
    _ = l.reverse.reverse := by rw [this]
    _ = l := List.reverse_reverse l

theorem readLE_append {l rest : List Nat} {w : Nat} (hlen : l.length = w) :
    readLE w (l ++ rest) = some (fromLE l, rest) := by
  subst hlen
  simp [readLE, List.take_left, List.drop_left]

theorem readLE_toLE {n w : Nat} (rest : List Nat) (h : n < 256 ^ w) :
    readLE w (toLE w n ++ rest) = some (n, rest) := by
  rw [readLE_append (length_toLE w n), fromLE_toLE h]

theorem splitTo_append {l rest : List Nat} {k : Nat} (hlen : l.length = k) :
    splitTo k (l ++ rest) = some (l, rest) := by
  subst hlen
  simp [splitTo, List.take_left, List.drop_left]

/-! ## Supporting lemmas -/

theorem toLE_fromBE {l : List Nat} (h : BytesOk l) :
    toLE l.length (fromBE l) = l.reverse := by
  calc toLE l.length (fromBE l)
      = ((toLE l.length (fromBE l)).reverse).reverse :=
        (List.reverse_reverse _).symm
    _ = (toBE l.length (fromBE l)).reverse := rfl
    _ = l.reverse := by rw [toBE_fromBE h]

theorem toBE_fromLE {l : List Nat} (h : BytesOk l) :
    toBE l.length (fromLE l) = l.reverse := by
  have hrev : BytesOk l.reverse := fun x hx => h x (List.mem_reverse.mp hx)
  have hval : fromLE l = fromBE l.reverse := by
    rw [fromBE_eq_fromLE_reverse, List.reverse_reverse]
  calc toBE l.length (fromLE l)
      = toBE l.reverse.length (fromBE l.reverse) := by
        rw [hval, List.length_reverse]
    _ = l.reverse := toBE_fromBE hrev

theorem Frame.fromBytes_first_is_first {b : List Nat} {f : Frame}
    (h : Frame.fromBytes b true = some f) : f.is_first = true := by
  unfold Frame.fromBytes at h
  cases h1 : readLE 2 b with
  | none => rw [h1] at h; cases h
  | some p1 =>
    rw [h1] at h
    cases h2 : readLE 4 p1.2 with
    | none => simp [h2] at h
    | some p2 =>
      cases h3 : readLE 8 p2.2 with
      | none => simp [h2, h3] at h
      | some p3 =>
        simp [h2, h3] at h
        rw [← h]
        rfl

theorem Frame.fromBytes_nonfirst_not_first {b : List Nat} {f : Frame}
    (h : Frame.fromBytes b false = some f) : f.is_first = false := by
  unfold Frame.fromBytes at h
  cases h1 : readLE 2 b with
  | none => rw [h1] at h; cases h
  | some p1 =>
    rw [h1] at h
    simp at h
    rw [← h]
    rfl

theorem lookupCorr_insertCorr (t : List (Nat × Nat)) (k v : Nat) :
    lookupCorr (insertCorr t k v) k = some v := by
  induction t with
  | nil => simp [insertCorr, lookupCorr]
  | cons p rest ih =>
    rcases p with ⟨k', v'⟩
    by_cases h : k' = k <;> simp [insertCorr, lookupCorr, h, ih]

theorem lookupCorr_removeCorr (t : List (Nat × Nat)) (k : Nat) :
    lookupCorr (removeCorr t k) k = none := by
  induction t with
  | nil => simp [removeCorr, lookupCorr]
  | cons p rest ih =>
    rcases p with ⟨k', v'⟩
    by_cases h : k' = k
    · simpa [removeCorr, h] using ih
    · simpa [removeCorr, lookupCorr, h] using ih

theorem mem_corrKeys_insertCorr {t : List (Nat × Nat)} {k v x : Nat}
    (hx : x ∈ corrKeys (insertCorr t k v)) : x ∈ corrKeys t ∨ x = k := by
  induction t with
  | nil => simpa [insertCorr, corrKeys] using hx
  | cons q rest ih =>
    rcases q with ⟨kq, vq⟩
    by_cases hq : kq = k
    · subst hq
      simp [insertCorr, corrKeys] at hx ⊢
      tauto
    · simp [insertCorr, hq, corrKeys] at hx ⊢
      rcases hx with hx | hx
      · tauto
      · rcases ih (by simpa [corrKeys] using hx) with hx' | hx'
        · simp [corrKeys] at hx'
          tauto
        · tauto

theorem corrKeys_insertCorr_nodup {t : List (Nat × Nat)} (k v : Nat)
    (h : (corrKeys t).Nodup) : (corrKeys (insertCorr t k v)).Nodup := by
  induction t with
  | nil => simp [insertCorr, corrKeys]
  | cons p rest ih =>
    rcases p with ⟨k', v'⟩
    simp only [corrKeys, List.map_cons, List.nodup_cons] at h
    by_cases hk : k' = k
    · subst hk
      simpa [insertCorr, corrKeys, List.nodup_cons] using h
    · have hmem : k' ∉ corrKeys (insertCorr rest k v) := by
        intro hcontra
        rcases mem_corrKeys_insertCorr hcontra with hmem' | heq
        · exact h.1 (by simpa [corrKeys] using hmem')
        · exact hk heq
      simp only [insertCorr, if_neg hk, corrKeys, List.map_cons,
        List.nodup_cons]
      exact ⟨by simpa [corrKeys] using hmem, ih h.2⟩

theorem corrKeys_removeCorr (t : List (Nat × Nat)) (k : Nat) :
    corrKeys (removeCorr t k) =
      (corrKeys t).filter (fun x => x ≠ k) := by
  induction t with
  | nil => rfl
  | cons p rest ih =>
    rcases p with ⟨k', v'⟩
    by_cases hk : k' = k <;>
      simp [removeCorr, corrKeys, hk, List.filter_cons] at ih ⊢ <;>
      simpa [removeCorr, corrKeys] using ih

theorem corrKeys_removeCorr_nodup {t : List (Nat × Nat)} (k : Nat)
    (h : (corrKeys t).Nodup) : (corrKeys (removeCorr t k)).Nodup := by
  rw [corrKeys_removeCorr]
  exact h.filter _

theorem encode_uuid_eq {u : List Nat} (h16 : u.length = 16)
    (hb : BytesOk u) (w : List Nat) :
    encode_uuid w u =
      w ++ 0 :: ((u.take 8).reverse ++ (u.drop 8).reverse) := by
  have hbt : BytesOk (u.take 8) := fun x hx => hb x (List.take_subset 8 u hx)
  have hbd : BytesOk (u.drop 8) := fun x hx => hb x (List.drop_subset 8 u hx)
  have hlt : (u.take 8).length = 8 := by simp [List.length_take, h16]
  have hld : (u.drop 8).length = 8 := by simp [List.length_drop, h16]
  have hdt : (u.drop 8).take 8 = u.drop 8 :=
    List.take_of_length_le (le_of_eq hld)
  have e1 : toLE 8 (fromBE (u.take 8)) = (u.take 8).reverse := by
    have := toLE_fromBE hbt
    rwa [hlt] at this
  have e2 : toLE 8 (fromBE ((u.drop 8).take 8)) = (u.drop 8).reverse := by
    rw [hdt]
    have := toLE_fromBE hbd
    rwa [hld] at this
  simp [encode_uuid, e1, e2]

theorem decode_uuid_wire {w1 w2 : List Nat} (h1 : w1.length = 8)
    (h2 : w2.length = 8) (hb1 : BytesOk w1) (hb2 : BytesOk w2)
    (rest : List Nat) :
    decode_uuid (0 :: (w1 ++ w2 ++ rest)) =
      some (some (w1.reverse ++ w2.reverse), rest) := by
  have hr1 : readLE 8 (w1 ++ (w2 ++ rest)) = some (fromLE w1, w2 ++ rest) :=
    readLE_append h1
  have hr2 : readLE 8 (w2 ++ rest) = some (fromLE w2, rest) :=
    readLE_append h2
  have hlt2 : fromLE w2 < 256 ^ 8 := by
    have := fromLE_lt hb2
    rwa [h2] at this
  have hread : uuidReadFrom (toLE 8 (fromLE w2) ++ toLE 8 (fromLE w1)) =
      some (toBE 8 (fromLE w1) ++ toBE 8 (fromLE w2),
        ([] : List Nat)) := by
    have ha : readLE 8 (toLE 8 (fromLE w2) ++ toLE 8 (fromLE w1)) =
        some (fromLE w2, toLE 8 (fromLE w1)) := readLE_toLE _ hlt2
    have hb' : readLE 8 (toLE 8 (fromLE w1) ++ ([] : List Nat)) =
        some (fromLE (toLE 8 (fromLE w1)), []) :=
      readLE_append (length_toLE 8 (fromLE w1))
    simp only [uuidReadFrom, ha]
    rw [show toLE 8 (fromLE w1) = toLE 8 (fromLE w1) ++ ([] : List Nat) by
      simp, hb']
    simp [fromLE_toLE (by
      have := fromLE_lt hb1
      rwa [h1] at this)]
  have hrev1 : toBE 8 (fromLE w1) = w1.reverse := by
    have := toBE_fromLE hb1
    rwa [h1] at this
  have hrev2 : toBE 8 (fromLE w2) = w2.reverse := by
    have := toBE_fromLE hb2
    rwa [h2] at this
  simp only [decode_uuid, readBool, List.append_assoc]
  norm_num
  simp only [hr1]
  simp only [hr2]
  simp only [hread, hrev1, hrev2]

/-! ## Claim theorems -/

/-- C3: encode_uuid writes exactly 17 bytes — one zero not-null marker
byte, then the most-significant 8 uuid bytes (each half written
little-endian, hence byte-reversed), then the least-significant 8 bytes;
on UUID eb66c416-4739-465b-9af3-9dc33ed8eef9 this yields the literal
bytes 00 5B 46 39 47 16 C4 66 EB F9 EE D8 3E C3 9D F3 9A; and decode_uuid
reads the 64-bit half it binds as least-significant first and the half it
binds as most-significant second, reassembling the first 8 wire bytes
after the marker into the most-significant half of the resulting uuid. -/
theorem C3_encode_uuid_layout :
    (∀ u : List Nat, u.length = 16 → BytesOk u →
      encode_uuid [] u = 0 :: ((u.take 8).reverse ++ (u.drop 8).reverse) ∧
      (encode_uuid [] u).length = 17) ∧
    encode_uuid [] uuidSample =
      [0x00, 0x5B, 0x46, 0x39, 0x47, 0x16, 0xC4, 0x66, 0xEB,
       0xF9, 0xEE, 0xD8, 0x3E, 0xC3, 0x9D, 0xF3, 0x9A] ∧
    (∀ w rest : List Nat, w.length = 16 → BytesOk w →
      decode_uuid (0 :: (w ++ rest)) =
        some (some ((w.take 8).reverse ++ (w.drop 8).reverse), rest)) := by
  refine ⟨fun u h16 hb => ?_, by decide, fun w rest h16 hb => ?_⟩
  · have he := encode_uuid_eq h16 hb []
    constructor
    · simpa using he
    · rw [he]
      simp [List.length_take, List.length_drop, h16]
  · have hbt : BytesOk (w.take 8) := fun x hx => hb x (List.take_subset 8 w hx)
    have hbd : BytesOk (w.drop 8) := fun x hx => hb x (List.drop_subset 8 w hx)
    have hlt : (w.take 8).length = 8 := by simp [List.length_take, h16]
    have hld : (w.drop 8).length = 8 := by simp [List.length_drop, h16]
    have := decode_uuid_wire hlt hld hbt hbd rest
    rwa [show w.take 8 ++ w.drop 8 ++ rest = w ++ rest by
      rw [List.append_assoc, ← List.append_assoc]
      simp [List.take_append_drop]] at this

/-- C3 witness: the general clauses of the layout theorem instantiated at
the concrete uuid of the in-tree test. -/
theorem C3_encode_uuid_layout_witness :
    uuidSample.length = 16 ∧ BytesOk uuidSample ∧
    encode_uuid [] uuidSample =
      0 :: ((uuidSample.take 8).reverse ++ (uuidSample.drop 8).reverse) ∧
    decode_uuid (0 :: (uuidSample ++ [])) =
      some (some ((uuidSample.take 8).reverse ++
        (uuidSample.drop 8).reverse), []) :=
  ⟨by decide, by decide,
    (C3_encode_uuid_layout.1 uuidSample (by decide) (by decide)).1,
    C3_encode_uuid_layout.2.2 uuidSample [] (by decide) (by decide)⟩

/-- C7: a frame built by initial_frame exposes exactly the constructing
correlation id and message type (in particular for type 0x1D0100 and id 1),
while a frame whose is_first flag is not set — every frame built by
Frame::new or parsed by Frame::from with is_first false — aborts on both
accessors (none), never yielding a silently defaulted value. -/
theorem C7_initial_frame_accessors :
    (∀ fl t c : Nat, (Frame.initial_frame fl t c).id = some c ∧
      (Frame.initial_frame fl t c).rtype = some t) ∧
    (∀ fl : Nat, (Frame.initial_frame fl 0x1D0100 1).id = some 1 ∧
      (Frame.initial_frame fl 0x1D0100 1).rtype = some 0x1D0100) ∧
    (∀ f : Frame, f.is_first = false → f.id = none ∧ f.rtype = none) ∧
    (∀ (content : List Nat) (fl : Nat),
      (Frame.new content fl).id = none ∧
      (Frame.new content fl).rtype = none) ∧
    (∀ (b : List Nat) (f : Frame), Frame.fromBytes b false = some f →
      f.id = none ∧ f.rtype = none) := by
  refine ⟨fun fl t c => ⟨rfl, rfl⟩, fun fl => ⟨rfl, rfl⟩,
    fun f h => ?_, fun content fl => ⟨rfl, rfl⟩, fun b f h => ?_⟩
  · simp [Frame.id, Frame.rtype, h]
  · have := Frame.fromBytes_nonfirst_not_first h
    simp [Frame.id, Frame.rtype, this]

/-- C7 witness: the accessor clauses evaluated at the concrete frames of
the in-tree tests. -/
theorem C7_initial_frame_accessors_witness :
    (Frame.new [] DEFAULT_FLAGS).is_first = false ∧
    (Frame.new [] DEFAULT_FLAGS).id = none ∧
    (Frame.new [] DEFAULT_FLAGS).rtype = none ∧
    Frame.fromBytes [0x1D, 0x4D, 0x24] false =
      some (Frame.new [0x24] 0x4D1D) ∧
    (Frame.new [0x24] 0x4D1D).id = none :=
  ⟨by decide,
    (C7_initial_frame_accessors.2.2.1 (Frame.new [] DEFAULT_FLAGS)
      (by decide)).1,
    (C7_initial_frame_accessors.2.2.1 (Frame.new [] DEFAULT_FLAGS)
      (by decide)).2,
    by decide,
    (C7_initial_frame_accessors.2.2.2.2 [0x1D, 0x4D, 0x24]
      (Frame.new [0x24] 0x4D1D) (by decide)).1⟩

/-- C8: decode_string aborts (none) on a missing frame and on a frame
whose content is not valid UTF-8, and any successful decode returns the
frame's exact content with the content valid — never a default value. -/
theorem C8_decode_string_fails_on_bad_utf8 :
    decode_string [] = none ∧
    (∀ (f : Frame) (rest : List Frame), validUtf8 f.content = false →
      decode_string (f :: rest) = none) ∧
    (∀ (frames : List Frame) (v : List Nat) (rest : List Frame),
      decode_string frames = some (v, rest) →
      ∃ f, frames = f :: rest ∧ v = f.content ∧
        validUtf8 f.content = true) := by
  refine ⟨rfl, fun f rest h => by simp [decode_string, h],
    fun frames v rest h => ?_⟩
  cases frames with
  | nil => cases h
  | cons f fs =>
    by_cases hv : validUtf8 f.content
    · refine ⟨f, ?_⟩
      simp [decode_string, hv] at h
      simp [hv, h.1.symm, h.2]
    · simp [decode_string, hv] at h

/-- C8 witness: the failure clause at the single invalid byte 0xFF and the
success characterization at a valid one-byte frame. -/
theorem C8_decode_string_fails_on_bad_utf8_witness :
    validUtf8 [0xFF] = false ∧
    decode_string [Frame.new [0xFF] DEFAULT_FLAGS] = none ∧
    (∃ f, [Frame.new [0x68] DEFAULT_FLAGS] = f :: [] ∧
      [0x68] = f.content ∧ validUtf8 f.content = true) :=
  ⟨by decide,
    C8_decode_string_fails_on_bad_utf8.2.1 (Frame.new [0xFF] DEFAULT_FLAGS)
      [] (by decide),
    C8_decode_string_fails_on_bad_utf8.2.2 [Frame.new [0x68] DEFAULT_FLAGS]
      [0x68] [] (by decide)⟩

/-- C9: decode_nullable peeks — on a null frame it returns None while
leaving the frame list unchanged, so the same null frame is handed to the
next decoder; on an exhausted frame list the ? operator also yields None
rather than an abort. -/
theorem C9_decode_nullable_peek {α : Type}
    (dec : List Frame → Option (α × List Frame)) :
    (∀ (f : Frame) (rest : List Frame), f.is_null_frame = true →
      decode_nullable (f :: rest) dec = some (none, f :: rest)) ∧
    decode_nullable ([] : List Frame) dec = some (none, []) :=
  ⟨fun f rest h => by simp [decode_nullable, h], rfl⟩

/-- C9 witness: the peek clause at a concrete null frame followed by a
trailing frame, with the string decoder. -/
theorem C9_decode_nullable_peek_witness :
    (Frame.new [] IS_NULL_FLAG).is_null_frame = true ∧
    decode_nullable
        [Frame.new [] IS_NULL_FLAG, Frame.new [0x68] DEFAULT_FLAGS]
        decode_string =
      some (none,
        [Frame.new [] IS_NULL_FLAG, Frame.new [0x68] DEFAULT_FLAGS]) :=
  ⟨by decide,
    (C9_decode_nullable_peek decode_string).1 (Frame.new [] IS_NULL_FLAG)
      [Frame.new [0x68] DEFAULT_FLAGS] (by decide)⟩

/-- C5: converting a Message whose declared type is the generic failure
type 0x0 while a different response type was expected yields a
server-failure result wrapping the Exception decoded from the first
frame's non-final wire payload — not an abort — and a matching declared
type yields Ok of the decoded response. -/
theorem C5_type_mismatch_server_failure {R : Type} (decoder : Message → R)
    (m : Message) (expected : Nat) :
    (m.mtype = Exception.rtype → expected ≠ Exception.rtype →
      ∀ f fs, m.frames = f :: fs →
        m.tryInto expected decoder =
          some (TryFromResult.serverFailure
            (Exception.read_from (f.payload false)))) ∧
    (m.mtype = expected →
      m.tryInto expected decoder = some (TryFromResult.ok (decoder m))) := by
  constructor
  · intro h0 hne f fs hframes
    have hne' : Exception.rtype ≠ expected := fun h => hne h.symm
    have hmis : m.mtype ≠ expected := by rw [h0]; exact hne'
    simp [Message.tryInto, hmis, h0, hframes, hne']
  · intro heq
    simp [Message.tryInto, heq]

/-- C5 witness: a concrete single-frame message of the failure type 0x0
converted while expecting type 5, and a matching-type conversion. -/
theorem C5_type_mismatch_server_failure_witness :
    (Message.new 1 0x0 (Frame.new [] DEFAULT_FLAGS)).tryInto 5
        (fun _ => (42 : Nat)) =
      some (TryFromResult.serverFailure
        (Exception.read_from ((Frame.new [] DEFAULT_FLAGS).payload false))) ∧
    (Message.new 1 0x0 (Frame.new [] DEFAULT_FLAGS)).tryInto 0x0
        (fun _ => (42 : Nat)) =
      some (TryFromResult.ok 42) :=
  ⟨(C5_type_mismatch_server_failure (fun _ => (42 : Nat))
      (Message.new 1 0x0 (Frame.new [] DEFAULT_FLAGS)) 5).1 rfl
      (by decide) (Frame.new [] DEFAULT_FLAGS) [] rfl,
    (C5_type_mismatch_server_failure (fun _ => (42 : Nat))
      (Message.new 1 0x0 (Frame.new [] DEFAULT_FLAGS)) 0x0).2 rfl⟩

theorem framesLoop_step (fuel flags : Nat) (c rest : List Nat)
    (acc : List Frame) (hf : flags < 2 ^ 16) (hc : c.length + 6 < 2 ^ 32) :
    framesLoop (fuel + 1)
        (toLE 4 (c.length + 6) ++ toLE 2 flags ++ c ++ rest) acc =
      if is_flag_set flags IS_FINAL_FLAG
      then some (acc ++ [Frame.new c flags])
      else framesLoop fuel rest (acc ++ [Frame.new c flags]) := by
  cases hl : toLE 4 (c.length + 6) with
  | nil =>
    have h4 := length_toLE 4 (c.length + 6)
    rw [hl] at h4
    cases h4
  | cons b bs =>
    have hlen4 : (b :: bs).length = 4 := by rw [← hl]; exact length_toLE _ _
    have hval : fromLE (b :: bs) = c.length + 6 := by
      rw [← hl]
      exact fromLE_toLE (by norm_num at hc ⊢; omega)
    have hshape : b :: bs ++ toLE 2 flags ++ c ++ rest =
        b :: (bs ++ (toLE 2 flags ++ (c ++ rest))) := by simp
    rw [hshape]
    simp only [framesLoop]
    have hr1 : readLE 4 (b :: (bs ++ (toLE 2 flags ++ (c ++ rest)))) =
        some (c.length + 6, toLE 2 flags ++ (c ++ rest)) := by
      rw [show b :: (bs ++ (toLE 2 flags ++ (c ++ rest))) =
        (b :: bs) ++ (toLE 2 flags ++ (c ++ rest)) from rfl]
      rw [readLE_append hlen4, hval]
    simp only [hr1]
    have hr2 : readLE 2 (toLE 2 flags ++ (c ++ rest)) =
        some (flags, c ++ rest) :=
      readLE_toLE _ (by norm_num at hf ⊢; omega)
    simp only [hr2]
    simp only [FRAME_LENGTH, FLAGS_LENGTH]
    rw [if_neg (by omega)]
    have hsp : splitTo (c.length + 6 - (4 + 2)) (c ++ rest) =
        some (c, rest) := by
      rw [show c.length + 6 - (4 + 2) = c.length by omega]
      exact splitTo_append rfl
    simp only [hsp]

theorem fromBytes_initial (flags t cid : Nat) (c rest : List Nat)
    (hf : flags < 2 ^ 16) (ht : t < 2 ^ 32) (hcid : cid < 2 ^ 64)
    (hlen : c.length + 18 < 2 ^ 32) :
    Message.fromBytes (toLE 4 (c.length + 18) ++ toLE 2 flags ++
        toLE 4 t ++ toLE 8 cid ++ c ++ rest) =
      Option.map
        (fun fs => ⟨cid, t,
          (Frame.initial_frame flags t cid).append_content c :: fs⟩)
        (framesLoop rest.length rest []) := by
  unfold Message.fromBytes
  rw [show toLE 4 (c.length + 18) ++ toLE 2 flags ++ toLE 4 t ++
      toLE 8 cid ++ c ++ rest =
    toLE 4 (c.length + 18) ++ (toLE 2 flags ++ (toLE 4 t ++
      (toLE 8 cid ++ (c ++ rest)))) by simp]
  have h1 : readLE 4 (toLE 4 (c.length + 18) ++ (toLE 2 flags ++
      (toLE 4 t ++ (toLE 8 cid ++ (c ++ rest))))) =
      some (c.length + 18, toLE 2 flags ++
        (toLE 4 t ++ (toLE 8 cid ++ (c ++ rest)))) :=
    readLE_toLE _ (by norm_num at hlen ⊢; omega)
  simp only [h1]
  have h2 : readLE 2 (toLE 2 flags ++
      (toLE 4 t ++ (toLE 8 cid ++ (c ++ rest)))) =
      some (flags, toLE 4 t ++ (toLE 8 cid ++ (c ++ rest))) :=
    readLE_toLE _ (by norm_num at hf ⊢; omega)
  simp only [h2]
  have h3 : readLE 4 (toLE 4 t ++ (toLE 8 cid ++ (c ++ rest))) =
      some (t, toLE 8 cid ++ (c ++ rest)) :=
    readLE_toLE _ (by norm_num at ht ⊢; omega)
  simp only [h3]
  have h4 : readLE 8 (toLE 8 cid ++ (c ++ rest)) =
      some (cid, c ++ rest) :=
    readLE_toLE _ (by norm_num at hcid ⊢; omega)
  simp only [h4]
  simp only [HEADER_LENGTH]
  rw [if_neg (by omega)]
  have hsp : splitTo (c.length + 18 - 18) (c ++ rest) = some (c, rest) := by
    rw [show c.length + 18 - 18 = c.length by omega]
    exact splitTo_append rfl
  simp only [hsp]
  cases framesLoop rest.length rest [] <;> rfl

/-- C4: converting raw bytes to a Message follows the wire layout — each
frame is a u32-LE length counting itself and the 2-byte flags, a u16-LE
flags field and length − 6 content bytes, and the initial frame's content
additionally begins with a u32-LE message type and u64-LE correlation id —
and the literal 6-frame byte sequence of the in-tree test parses to
exactly 6 frames whose first flags equal 0xC000 and whose last flags
carry bit 13 (0x2000). -/
theorem C4_message_from_bytes :
    (∀ (flags t cid : Nat) (c rest : List Nat), flags < 2 ^ 16 →
      t < 2 ^ 32 → cid < 2 ^ 64 → c.length + 18 < 2 ^ 32 →
      Message.fromBytes (toLE 4 (c.length + 18) ++ toLE 2 flags ++
          toLE 4 t ++ toLE 8 cid ++ c ++ rest) =
        Option.map
          (fun fs => ⟨cid, t,
            (Frame.initial_frame flags t cid).append_content c :: fs⟩)
          (framesLoop rest.length rest [])) ∧
    (∀ (fuel flags : Nat) (c rest : List Nat) (acc : List Frame),
      flags < 2 ^ 16 → c.length + 6 < 2 ^ 32 →
      framesLoop (fuel + 1)
          (toLE 4 (c.length + 6) ++ toLE 2 flags ++ c ++ rest) acc =
        if is_flag_set flags IS_FINAL_FLAG
        then some (acc ++ [Frame.new c flags])
        else framesLoop fuel rest (acc ++ [Frame.new c flags])) ∧
    (Message.fromBytes sampleBytes).map (fun m =>
        (m.frames.length, m.frames.head?.map (fun f => f.flags),
          m.frames.getLast?.map
            (fun f => is_flag_set f.flags IS_FINAL_FLAG))) =
      some (6, some 0xC000, some true) :=
  ⟨fun flags t cid c rest hf ht hcid hlen =>
      fromBytes_initial flags t cid c rest hf ht hcid hlen,
    fun fuel flags c rest acc hf hc =>
      framesLoop_step fuel flags c rest acc hf hc,
    by decide⟩

/-- C4 witness: the generic layout clauses instantiated at a one-byte
content frame and an empty final frame. -/
theorem C4_message_from_bytes_witness :
    Message.fromBytes (toLE 4 19 ++ toLE 2 0xC000 ++ toLE 4 0x101 ++
        toLE 8 1 ++ [0x2A] ++ [0x06, 0x00, 0x00, 0x00, 0x00, 0x20]) =
      Option.map
        (fun fs => ⟨1, 0x101,
          (Frame.initial_frame 0xC000 0x101 1).append_content [0x2A] :: fs⟩)
        (framesLoop 6 [0x06, 0x00, 0x00, 0x00, 0x00, 0x20] []) ∧
    framesLoop 1 (toLE 4 6 ++ toLE 2 0x2000 ++ [] ++ []) [] =
      some ([Frame.new [] 0x2000]) :=
  ⟨C4_message_from_bytes.1 0xC000 0x101 1 [0x2A]
      [0x06, 0x00, 0x00, 0x00, 0x00, 0x20] (by decide) (by decide)
      (by decide) (by decide),
    by
      have := C4_message_from_bytes.2.1 0 0x2000 [] [] [] (by decide)
        (by decide)
      simpa using this⟩

theorem length_writePayloads (fs : List Frame) :
    (writePayloads fs).length = fs.length := by
  induction fs with
  | nil => rfl
  | cons f rest ih =>
    cases rest with
    | nil => rfl
    | cons g t =>
      simp only [writePayloads, List.length_cons] at ih ⊢
      omega

theorem writePayloads_getElem (fs : List Frame) (i : Nat)
    (h : i + 1 < fs.length) :
    (writePayloads fs)[i]? = fs[i]?.map (fun f => f.payload false) := by
  induction fs generalizing i with
  | nil => simp at h
  | cons f rest ih =>
    cases rest with
    | nil => simp at h
    | cons g t =>
      cases i with
      | zero => simp [writePayloads]
      | succ j =>
        simp only [writePayloads]
        simp only [List.getElem?_cons_succ]
        exact ih j (by simpa using h)

theorem writePayloads_getLast (fs : List Frame) :
    (writePayloads fs).getLast? = fs.getLast?.map (fun f => f.payload true) := by
  induction fs with
  | nil => rfl
  | cons f rest ih =>
    cases rest with
    | nil => rfl
    | cons g t =>
      have hne : writePayloads (g :: t) ≠ [] := by
        cases t <;> simp [writePayloads]
      cases hw : writePayloads (g :: t) with
      | nil => exact absurd hw hne
      | cons p w =>
        rw [show writePayloads (f :: g :: t) =
          f.payload false :: writePayloads (g :: t) from rfl, hw]
        rw [List.getLast?_cons_cons, ← hw, ih]
        rw [show (f :: g :: t).getLast? = (g :: t).getLast? from
          List.getLast?_cons_cons]

/-- C6: the egress branch writes exactly one wire payload per frame of the
outgoing message, in frame order; every payload but the last is the
frame's payload(false), the last is payload(true) — so only the last wire
payload carries the final-message bit — and afterwards the correlation
table maps the message's correlation id to the caller's sink. -/
theorem C6_egress_payloads (st : ChannelState) (m : Message) (sink : Nat) :
    (egressStep st m sink).1.length = m.frames.length ∧
    (∀ i, i + 1 < m.frames.length →
      (egressStep st m sink).1[i]? =
        m.frames[i]?.map (fun f => f.payload false)) ∧
    (egressStep st m sink).1.getLast? =
      m.frames.getLast?.map (fun f => f.payload true) ∧
    lookupCorr (egressStep st m sink).2.correlations m.id = some sink :=
  ⟨length_writePayloads m.frames,
    fun i h => writePayloads_getElem m.frames i h,
    writePayloads_getLast m.frames,
    lookupCorr_insertCorr st.correlations m.id sink⟩

/-- C6 witness: the per-index clause of the egress theorem at a concrete
two-frame message. -/
theorem C6_egress_payloads_witness :
    (egressStep ⟨[], NO_CORRELATION⟩
        ⟨3, 7, [Frame.new [1] 0, Frame.new [2] 0]⟩ 9).1[0]? =
      some ((Frame.new [1] 0).payload false) ∧
    (egressStep ⟨[], NO_CORRELATION⟩
        ⟨3, 7, [Frame.new [1] 0, Frame.new [2] 0]⟩ 9).1.getLast? =
      some ((Frame.new [2] 0).payload true) := by
  have h := C6_egress_payloads ⟨[], NO_CORRELATION⟩
    ⟨3, 7, [Frame.new [1] 0, Frame.new [2] 0]⟩ 9
  refine ⟨?_, ?_⟩
  · have := h.2.1 0 (by decide)
    simpa using this
  · simpa using h.2.2.1

/-- Exhaustive description of a successful ingress transition: the frame
was parsed with is_first tied to the cursor, and exactly one of the three
source branches fired. -/
theorem ingressStep_cases {st : ChannelState} {bytes : List Nat}
    {st' : ChannelState} {sink : Nat} {fr : Frame}
    (h : ingressStep st bytes = some (st', sink, fr)) :
    Frame.fromBytes bytes (st.active == NO_CORRELATION) = some fr ∧
    ((fr.is_first = true ∧ st'.correlations = st.correlations ∧
        st'.active = fr.cid ∧
        lookupCorr st.correlations fr.cid = some sink) ∨
      (fr.is_first = false ∧ is_flag_set fr.flags IS_FINAL_FLAG = true ∧
        st' = ⟨removeCorr st.correlations st.active, NO_CORRELATION⟩ ∧
        lookupCorr st.correlations st.active = some sink) ∨
      (fr.is_first = false ∧ is_flag_set fr.flags IS_FINAL_FLAG = false ∧
        st' = st ∧
        lookupCorr st.correlations st.active = some sink)) := by
  unfold ingressStep at h
  cases hfb : Frame.fromBytes bytes (st.active == NO_CORRELATION) with
  | none => rw [hfb] at h; cases h
  | some fr' =>
    rw [hfb] at h
    by_cases hf : fr'.is_first = true
    · simp only [hf, if_true, Frame.id, if_pos hf] at h
      cases hlk : lookupCorr st.correlations fr'.cid with
      | none => rw [hlk] at h; cases h
      | some s =>
        rw [hlk] at h
        have hinj := Option.some.inj h
        injection hinj with h1 h23
        injection h23 with h2 h3
        subst h1 h2 h3
        exact ⟨rfl, Or.inl ⟨hf, rfl, rfl, hlk⟩⟩
    · have hf' : fr'.is_first = false := by
        cases hfe : fr'.is_first
        · rfl
        · exact absurd hfe hf
      simp only [hf', Bool.false_eq_true, if_false] at h
      by_cases hfin : is_flag_set fr'.flags IS_FINAL_FLAG = true
      · simp only [hfin, if_true] at h
        cases hlk : lookupCorr st.correlations st.active with
        | none => rw [hlk] at h; cases h
        | some s =>
          rw [hlk] at h
          have hinj := Option.some.inj h
          injection hinj with h1 h23
          injection h23 with h2 h3
          subst h1 h2 h3
          exact ⟨rfl, Or.inr (Or.inl ⟨hf', hfin, rfl, rfl⟩)⟩
      · have hfin' : is_flag_set fr'.flags IS_FINAL_FLAG = false := by
          cases hfe : is_flag_set fr'.flags IS_FINAL_FLAG
          · rfl
          · exact absurd hfe hfin
        simp only [hfin', Bool.false_eq_true, if_false] at h
        cases hlk : lookupCorr st.correlations st.active with
        | none => rw [hlk] at h; cases h
        | some s =>
          rw [hlk] at h
          have hinj := Option.some.inj h
          injection hinj with h1 h23
          injection h23 with h2 h3
          subst h1 h2 h3
          exact ⟨rfl, Or.inr (Or.inr ⟨hf', hfin', rfl, rfl⟩)⟩

/-- C2 counterexample: with correlation 5 registered and no correlation
active, a first frame that itself bears the final-message bit (flags
0xE000, id 5) is processed by the ingress branch, yet afterwards the table
still contains id 5 and the active cursor holds 5 instead of being
cleared — refuting removal on every final-marked frame. -/
theorem C2_first_final_frame_not_removed :
    (ingressStep ⟨[(5, 7)], NO_CORRELATION⟩
        (toLE 2 0xE000 ++ toLE 4 0x1D0100 ++ toLE 8 5)).map
      (fun r => (is_flag_set (r.2.2).flags IS_FINAL_FLAG,
        lookupCorr (r.1).correlations 5, (r.1).active)) =
      some (true, some 7, 5) := by decide

/-- C2 amended: the table holds at most one live entry per correlation id
(key uniqueness is preserved by both branches), and the ingress branch
removes the active entry and clears the cursor exactly when a non-first
frame bearing the final-message bit arrives; a first frame — even one
bearing the final marker — and a non-final non-first frame leave the
table unchanged. -/
theorem C2_correlation_removal :
    (∀ (st : ChannelState) (m : Message) (sink : Nat),
      (corrKeys st.correlations).Nodup →
      (corrKeys (egressStep st m sink).2.correlations).Nodup) ∧
    (∀ (st : ChannelState) (bytes : List Nat) (st' : ChannelState)
        (sink : Nat) (fr : Frame),
      ingressStep st bytes = some (st', sink, fr) →
      ((corrKeys st.correlations).Nodup →
        (corrKeys st'.correlations).Nodup) ∧
      (fr.is_first = false → is_flag_set fr.flags IS_FINAL_FLAG = true →
        lookupCorr st'.correlations st.active = none ∧
        st'.active = NO_CORRELATION) ∧
      (fr.is_first = true → st'.correlations = st.correlations) ∧
      (fr.is_first = false → is_flag_set fr.flags IS_FINAL_FLAG = false →
        st' = st)) := by
  constructor
  · intro st m sink h
    exact corrKeys_insertCorr_nodup m.id sink h
  · intro st bytes st' sink fr h
    rcases (ingressStep_cases h).2 with
      ⟨hf, hcorr, hact, hlk⟩ | ⟨hf, hfin, hst, hlk⟩ | ⟨hf, hfin, hst, hlk⟩
    · refine ⟨fun hn => hcorr ▸ hn, fun hff _ => ?_, fun _ => hcorr,
        fun hff _ => ?_⟩
      · rw [hf] at hff; cases hff
      · rw [hf] at hff; cases hff
    · subst hst
      refine ⟨fun hn => corrKeys_removeCorr_nodup _ hn,
        fun _ _ => ⟨lookupCorr_removeCorr _ _, rfl⟩,
        fun hft => ?_, fun _ hfin' => ?_⟩
      · rw [hf] at hft; cases hft
      · rw [hfin] at hfin'; cases hfin'
    · subst hst
      refine ⟨fun hn => hn, fun _ hfin' => ?_, fun hft => ?_,
        fun _ _ => rfl⟩
      · exact absurd hfin' (by simp [hfin])
      · exact absurd hft (by simp [hf])

/-- C2 witness: the amended removal clause at a concrete table — a
non-first final frame for active correlation 5 empties the entry and
clears the cursor. -/
theorem C2_correlation_removal_witness :
    ingressStep ⟨[(5, 7)], 5⟩ (toLE 2 0x2000) =
      some (⟨[], NO_CORRELATION⟩, 7, Frame.new [] 0x2000) ∧
    lookupCorr (⟨[], NO_CORRELATION⟩ : ChannelState).correlations 5 =
      none ∧
    (⟨[], NO_CORRELATION⟩ : ChannelState).active = NO_CORRELATION :=
  ⟨by decide,
    ((C2_correlation_removal.2 ⟨[(5, 7)], 5⟩ (toLE 2 0x2000)
        ⟨[], NO_CORRELATION⟩ 7 (Frame.new [] 0x2000)
        (by decide)).2.1 (by decide) (by decide)).1,
    ((C2_correlation_removal.2 ⟨[(5, 7)], 5⟩ (toLE 2 0x2000)
        ⟨[], NO_CORRELATION⟩ 7 (Frame.new [] 0x2000)
        (by decide)).2.1 (by decide) (by decide)).2⟩

/-- C10: the ingress branch parses a frame as first exactly when the
active cursor equals NO_CORRELATION = 0, while the Member's sequencer
starts issuing correlation ids at 0; hence after a first frame whose
correlation id is 0 the cursor again equals the sentinel and the next
frame of the same message is parsed as a first frame once more. -/
theorem C10_zero_id_collides_with_sentinel :
    NO_CORRELATION = 0 ∧
    Sender.nextId Sender.initialSequencer = (0, 1) ∧
    (∀ (st : ChannelState) (bytes : List Nat) (st' : ChannelState)
        (sink : Nat) (fr : Frame), st.active = NO_CORRELATION →
      ingressStep st bytes = some (st', sink, fr) →
      fr.is_first = true ∧ st'.active = fr.cid ∧
      (fr.cid = 0 → st'.active = NO_CORRELATION ∧
        ∀ (bytes2 : List Nat) (st2 : ChannelState) (s2 : Nat) (fr2 : Frame),
          ingressStep st' bytes2 = some (st2, s2, fr2) →
          fr2.is_first = true)) ∧
    (∀ (st : ChannelState) (bytes : List Nat) (st' : ChannelState)
        (sink : Nat) (fr : Frame), st.active ≠ NO_CORRELATION →
      ingressStep st bytes = some (st', sink, fr) →
      fr.is_first = false) := by
  have key : ∀ (st : ChannelState) (bytes : List Nat) (st' : ChannelState)
      (sink : Nat) (fr : Frame), st.active = NO_CORRELATION →
      ingressStep st bytes = some (st', sink, fr) →
      fr.is_first = true ∧ st'.active = fr.cid := by
    intro st bytes st' sink fr h0 h
    obtain ⟨hfb, hbr⟩ := ingressStep_cases h
    rw [h0] at hfb
    simp only [beq_self_eq_true] at hfb
    have hfirst : fr.is_first = true := Frame.fromBytes_first_is_first hfb
    rcases hbr with ⟨_, _, hact, _⟩ | ⟨hf, _⟩ | ⟨hf, _⟩
    · exact ⟨hfirst, hact⟩
    · rw [hfirst] at hf; cases hf
    · rw [hfirst] at hf; cases hf
  have keyn : ∀ (st : ChannelState) (bytes : List Nat) (st' : ChannelState)
      (sink : Nat) (fr : Frame), st.active ≠ NO_CORRELATION →
      ingressStep st bytes = some (st', sink, fr) →
      fr.is_first = false := by
    intro st bytes st' sink fr h0 h
    obtain ⟨hfb, _⟩ := ingressStep_cases h
    have hne : (st.active == NO_CORRELATION) = false := by
      simpa using h0
    rw [hne] at hfb
    exact Frame.fromBytes_nonfirst_not_first hfb
  refine ⟨rfl, rfl, fun st bytes st' sink fr h0 h => ?_, keyn⟩
  obtain ⟨hfirst, hact⟩ := key st bytes st' sink fr h0 h
  refine ⟨hfirst, hact, fun hcid0 => ?_⟩
  have hact0 : st'.active = NO_CORRELATION := by rw [hact, hcid0]; rfl
  exact ⟨hact0, fun bytes2 st2 s2 fr2 h2 =>
    (key st' bytes2 st2 s2 fr2 hact0 h2).1⟩

/-- C10 witness: a first frame with correlation id 0 processed against a
table holding id 0 leaves the cursor at the sentinel. -/
theorem C10_zero_id_collides_with_sentinel_witness :
    ingressStep ⟨[(0, 3)], NO_CORRELATION⟩
        (toLE 2 0xC000 ++ toLE 4 0x101 ++ toLE 8 0) =
      some (⟨[(0, 3)], 0⟩, 3,
        (Frame.initial_frame 0xC000 0x101 0).append_content []) ∧
    ((Frame.initial_frame 0xC000 0x101 0).append_content []).is_first =
      true ∧
    (⟨[(0, 3)], 0⟩ : ChannelState).active = NO_CORRELATION :=
  ⟨by decide,
    (C10_zero_id_collides_with_sentinel.2.2.1 ⟨[(0, 3)], NO_CORRELATION⟩
      (toLE 2 0xC000 ++ toLE 4 0x101 ++ toLE 8 0) ⟨[(0, 3)], 0⟩ 3
      ((Frame.initial_frame 0xC000 0x101 0).append_content [])
      rfl (by decide)).1,
    ((C10_zero_id_collides_with_sentinel.2.2.1 ⟨[(0, 3)], NO_CORRELATION⟩
      (toLE 2 0xC000 ++ toLE 4 0x101 ++ toLE 8 0) ⟨[(0, 3)], 0⟩ 3
      ((Frame.initial_frame 0xC000 0x101 0).append_content [])
      rfl (by decide)).2.2 (by decide)).1⟩

theorem readBool_writeBool (b : Bool) (rest : List Nat) :
    readBool (writeBool b ++ rest) = some (b, rest) := by
  cases b <;> simp [writeBool, readBool]

theorem decode_encode_uuid {u : List Nat} (h16 : u.length = 16)
    (hb : BytesOk u) (rest : List Nat) :
    decode_uuid (encode_uuid [] u ++ rest) = some (some u, rest) := by
  have hbt : BytesOk ((u.take 8).reverse) := fun x hx =>
    hb x (List.take_subset 8 u (List.mem_reverse.mp hx))
  have hbd : BytesOk ((u.drop 8).reverse) := fun x hx =>
    hb x (List.drop_subset 8 u (List.mem_reverse.mp hx))
  have hlt : ((u.take 8).reverse).length = 8 := by
    simp [List.length_reverse, List.length_take, h16]
  have hld : ((u.drop 8).reverse).length = 8 := by
    simp [List.length_reverse, List.length_drop, h16]
  rw [encode_uuid_eq h16 hb []]
  rw [show ([] ++ 0 :: ((u.take 8).reverse ++ (u.drop 8).reverse)) ++ rest =
    0 :: ((u.take 8).reverse ++ (u.drop 8).reverse ++ rest) by simp]
  rw [decode_uuid_wire hlt hld hbt hbd rest]
  simp [List.reverse_reverse, List.take_append_drop]

theorem decode_nullable_some {α : Type} (v : α) (F_v : List Frame)
    (dec : List Frame → Option (α × List Frame)) (rest : List Frame)
    (hne : ∃ f fs, F_v = f :: fs ∧ f.is_null_frame = false)
    (hdec : dec (F_v ++ rest) = some (v, rest)) :
    decode_nullable (F_v ++ rest) dec = some (some v, rest) := by
  obtain ⟨f, fs, hF, hnull⟩ := hne
  subst hF
  simp only [List.cons_append, decode_nullable, hnull, Bool.false_eq_true,
    if_false]
  rw [← List.cons_append, hdec]

theorem foldl_encode_frames {α : Type} (enc : Message → α → Message)
    (F : α → List Frame) :
    ∀ (l : List α) (m0 : Message),
    (∀ m' x, x ∈ l → (enc m' x).frames = m'.frames ++ F x) →
    (l.foldl enc m0).frames = m0.frames ++ l.flatMap F := by
  intro l
  induction l with
  | nil => intro m0 _; simp
  | cons x xs ih =>
    intro m0 hF
    have hx := hF m0 x (List.mem_cons_self x xs)
    have hxs : ∀ m' y, y ∈ xs → (enc m' y).frames = m'.frames ++ F y :=
      fun m' y hy => hF m' y (List.mem_cons_of_mem x hy)
    calc ((x :: xs).foldl enc m0).frames
        = (xs.foldl enc (enc m0 x)).frames := rfl
      _ = (enc m0 x).frames ++ xs.flatMap F := ih (enc m0 x) hxs
      _ = m0.frames ++ (F x ++ xs.flatMap F) := by rw [hx, List.append_assoc]
      _ = m0.frames ++ (x :: xs).flatMap F := by simp [List.flatMap_cons]

theorem encode_list_frames {α : Type} (m : Message) (l : List α)
    (enc : Message → α → Message) (F : α → List Frame)
    (hF : ∀ m' x, x ∈ l → (enc m' x).frames = m'.frames ++ F x) :
    (encode_list m l enc).frames =
      m.frames ++ (Frame.new [] BEGIN_DATA_STRUCTURE_FLAG ::
        (l.flatMap F ++ [Frame.new [] END_DATA_STRUCTURE_FLAG])) := by
  unfold encode_list
  rw [show ((l.foldl enc
      (m.add (Frame.new [] BEGIN_DATA_STRUCTURE_FLAG))).add
        (Frame.new [] END_DATA_STRUCTURE_FLAG)).frames =
    (l.foldl enc (m.add (Frame.new [] BEGIN_DATA_STRUCTURE_FLAG))).frames ++
      [Frame.new [] END_DATA_STRUCTURE_FLAG] from rfl]
  rw [foldl_encode_frames enc F l _ hF]
  simp [Message.add]

theorem decodeListLoop_roundtrip {α : Type}
    (dec : List Frame → Option (α × List Frame)) (F : α → List Frame) :
    ∀ (l : List α) (suffix : List Frame) (fuel : Nat),
    (∀ x r, x ∈ l → dec (F x ++ r) = some (x, r)) →
    (∀ x, x ∈ l → ∃ f fs, F x = f :: fs ∧ f.is_end_frame = false) →
    (l.flatMap F).length + 1 ≤ fuel →
    decodeListLoop dec fuel
        (l.flatMap F ++ (Frame.new [] END_DATA_STRUCTURE_FLAG :: suffix)) =
      some (l, suffix) := by
  intro l
  induction l with
  | nil =>
    intro suffix fuel _ _ hfuel
    cases fuel with
    | zero => simp at hfuel
    | succ k =>
      simp only [List.flatMap_nil, List.nil_append, decodeListLoop]
      rw [if_pos (by decide)]
  | cons x xs ih =>
    intro suffix fuel hdec hne hfuel
    obtain ⟨f, fs, hFx, hend⟩ := hne x (List.mem_cons_self x xs)
    have hx := hdec x (xs.flatMap F ++
      (Frame.new [] END_DATA_STRUCTURE_FLAG :: suffix))
      (List.mem_cons_self x xs)
    have hlenx : (F x).length = fs.length + 1 := by rw [hFx]; rfl
    have hlenbind : ((x :: xs).flatMap F).length =
        (F x).length + (xs.flatMap F).length := by
      simp [List.flatMap_cons]
    cases fuel with
    | zero => omega
    | succ k =>
      have hshape : (x :: xs).flatMap F ++
          (Frame.new [] END_DATA_STRUCTURE_FLAG :: suffix) =
          f :: (fs ++ (xs.flatMap F ++
            (Frame.new [] END_DATA_STRUCTURE_FLAG :: suffix))) := by
        simp [List.flatMap_cons, hFx]
      rw [hshape]
      simp only [decodeListLoop]
      rw [if_neg (by rw [hend]; exact Bool.false_ne_true)]
      rw [show f :: (fs ++ (xs.flatMap F ++
          (Frame.new [] END_DATA_STRUCTURE_FLAG :: suffix))) =
        F x ++ (xs.flatMap F ++
          (Frame.new [] END_DATA_STRUCTURE_FLAG :: suffix)) by
        rw [hFx]; simp]
      simp only [hx]
      have hrec := ih suffix k
        (fun y r hy => hdec y r (List.mem_cons_of_mem x hy))
        (fun y hy => hne y (List.mem_cons_of_mem x hy))
        (by omega)
      simp only [hrec]

theorem decode_list_roundtrip {α : Type} (l : List α)
    (dec : List Frame → Option (α × List Frame)) (F : α → List Frame)
    (rest : List Frame)
    (hdec : ∀ x r, x ∈ l → dec (F x ++ r) = some (x, r))
    (hne : ∀ x, x ∈ l → ∃ f fs, F x = f :: fs ∧ f.is_end_frame = false) :
    decode_list ((Frame.new [] BEGIN_DATA_STRUCTURE_FLAG ::
        (l.flatMap F ++ [Frame.new [] END_DATA_STRUCTURE_FLAG])) ++ rest)
      dec = some (l, rest) := by
  rw [show (Frame.new [] BEGIN_DATA_STRUCTURE_FLAG ::
      (l.flatMap F ++ [Frame.new [] END_DATA_STRUCTURE_FLAG])) ++ rest =
    Frame.new [] BEGIN_DATA_STRUCTURE_FLAG ::
      (l.flatMap F ++ (Frame.new [] END_DATA_STRUCTURE_FLAG :: rest)) by
    simp]
  show decodeListLoop dec
    (l.flatMap F ++ (Frame.new [] END_DATA_STRUCTURE_FLAG :: rest)).length
    (l.flatMap F ++ (Frame.new [] END_DATA_STRUCTURE_FLAG :: rest)) =
    some (l, rest)
  exact decodeListLoop_roundtrip dec F l rest _ hdec hne
    (by simp [List.length_append])

/-- C1: encode followed by the corresponding decode reproduces every
value exactly — fixed-width little-endian numerics and booleans, strings
(the encoder appends one raw-UTF-8 frame and the decoder reads it back),
uuids through encode_uuid/decode_uuid, nullable values through
encode_nullable/decode_nullable for any element codec that itself round
trips (present value and absent value), and lists through
encode_list and the list decoder for any element codec that round trips
and never opens with an end-marker frame. -/
theorem C1_encode_decode_roundtrip (α : Type) :
    (∀ (w n : Nat) (rest : List Nat), n < 256 ^ w →
      readLE w (toLE w n ++ rest) = some (n, rest)) ∧
    (∀ (b : Bool) (rest : List Nat),
      readBool (writeBool b ++ rest) = some (b, rest)) ∧
    (∀ (m : Message) (v : List Nat),
      (encode_string m v).frames =
        m.frames ++ [Frame.new v DEFAULT_FLAGS]) ∧
    (∀ (v : List Nat) (rest : List Frame), validUtf8 v = true →
      decode_string (Frame.new v DEFAULT_FLAGS :: rest) = some (v, rest)) ∧
    (∀ (u rest : List Nat), u.length = 16 → BytesOk u →
      decode_uuid (encode_uuid [] u ++ rest) = some (some u, rest)) ∧
    (∀ (m : Message) (enc : Message → α → Message) (v : α)
        (F_v : List Frame) (dec : List Frame → Option (α × List Frame))
        (rest : List Frame),
      (enc m v).frames = m.frames ++ F_v →
      (∀ r, dec (F_v ++ r) = some (v, r)) →
      (∃ f fs, F_v = f :: fs ∧ f.is_null_frame = false) →
      (encode_nullable m (some v) enc).frames = m.frames ++ F_v ∧
      decode_nullable (F_v ++ rest) dec = some (some v, rest)) ∧
    (∀ (m : Message) (enc : Message → α → Message)
        (dec : List Frame → Option (α × List Frame)) (rest : List Frame),
      (encode_nullable m none enc).frames =
        m.frames ++ [Frame.new [] IS_NULL_FLAG] ∧
      decode_nullable (Frame.new [] IS_NULL_FLAG :: rest) dec =
        some (none, Frame.new [] IS_NULL_FLAG :: rest)) ∧
    (∀ (m : Message) (enc : Message → α → Message) (l : List α)
        (F : α → List Frame) (dec : List Frame → Option (α × List Frame))
        (rest : List Frame),
      (∀ m' x, x ∈ l → (enc m' x).frames = m'.frames ++ F x) →
      (∀ x r, x ∈ l → dec (F x ++ r) = some (x, r)) →
      (∀ x, x ∈ l → ∃ f fs, F x = f :: fs ∧ f.is_end_frame = false) →
      (encode_list m l enc).frames =
        m.frames ++ (Frame.new [] BEGIN_DATA_STRUCTURE_FLAG ::
          (l.flatMap F ++ [Frame.new [] END_DATA_STRUCTURE_FLAG])) ∧
      decode_list ((Frame.new [] BEGIN_DATA_STRUCTURE_FLAG ::
          (l.flatMap F ++ [Frame.new [] END_DATA_STRUCTURE_FLAG])) ++ rest)
        dec = some (l, rest)) := by
  refine ⟨fun w n rest h => readLE_toLE rest h, readBool_writeBool,
    fun m v => rfl, fun v rest hv => ?_,
    fun u rest h16 hb => decode_encode_uuid h16 hb rest,
    fun m enc v F_v dec rest hEnc hdec hne => ?_,
    fun m enc dec rest => ⟨rfl, ?_⟩,
    fun m enc l F dec rest hF hdec hne => ?_⟩
  · simp [decode_string, Frame.new, hv]
  · exact ⟨hEnc, decode_nullable_some v F_v dec rest hne (hdec rest)⟩
  · have hnull : (Frame.new [] IS_NULL_FLAG).is_null_frame = true := by
      decide
    simp [decode_nullable, hnull]
  · exact ⟨encode_list_frames m l enc F hF,
      decode_list_roundtrip l dec F rest hdec hne⟩

/-- C1 witness: the round-trip clauses evaluated at concrete values — the
numeric 0x1D0100 in 4 bytes, the boolean true, the one-byte string 0x68,
the sample uuid, a present and an absent nullable string, and the
one-element string list. -/
theorem C1_encode_decode_roundtrip_witness :
    readLE 4 (toLE 4 0x1D0100 ++ []) = some (0x1D0100, []) ∧
    readBool (writeBool true ++ []) = some (true, []) ∧
    decode_string (Frame.new [0x68] DEFAULT_FLAGS :: []) =
      some ([0x68], []) ∧
    decode_uuid (encode_uuid [] uuidSample ++ []) =
      some (some uuidSample, []) ∧
    decode_nullable ([Frame.new [0x68] DEFAULT_FLAGS] ++ []) decode_string =
      some (some [0x68], []) ∧
    decode_nullable (Frame.new [] IS_NULL_FLAG :: []) decode_string =
      some (none, Frame.new [] IS_NULL_FLAG :: []) ∧
    decode_list ((Frame.new [] BEGIN_DATA_STRUCTURE_FLAG ::
        ([[0x68]].flatMap (fun v => [Frame.new v DEFAULT_FLAGS]) ++
          [Frame.new [] END_DATA_STRUCTURE_FLAG])) ++ [])
      decode_string = some ([[0x68]], []) :=
  ⟨(C1_encode_decode_roundtrip (List Nat)).1 4 0x1D0100 [] (by decide),
    (C1_encode_decode_roundtrip (List Nat)).2.1 true [],
    (C1_encode_decode_roundtrip (List Nat)).2.2.2.1 [0x68] [] (by decide),
    (C1_encode_decode_roundtrip (List Nat)).2.2.2.2.1 uuidSample []
      (by decide) (by decide),
    ((C1_encode_decode_roundtrip (List Nat)).2.2.2.2.2.1
      (Message.new 1 0 (Frame.new [] DEFAULT_FLAGS)) encode_string [0x68]
      [Frame.new [0x68] DEFAULT_FLAGS] decode_string [] rfl
      (fun r => (C1_encode_decode_roundtrip (List Nat)).2.2.2.1 [0x68] r
        (by decide))
      ⟨Frame.new [0x68] DEFAULT_FLAGS, [], rfl, by decide⟩).2,
    ((C1_encode_decode_roundtrip (List Nat)).2.2.2.2.2.2.1
      (Message.new 1 0 (Frame.new [] DEFAULT_FLAGS)) encode_string
      decode_string []).2,
    ((C1_encode_decode_roundtrip (List Nat)).2.2.2.2.2.2.2
      (Message.new 1 0 (Frame.new [] DEFAULT_FLAGS)) encode_string
      [[0x68]] (fun v => [Frame.new v DEFAULT_FLAGS]) decode_string []
      (fun m' x _ => rfl)
      (fun x r hx => by
        rw [show x = [0x68] by simpa using hx]
        exact (C1_encode_decode_roundtrip (List Nat)).2.2.2.1 [0x68] r
          (by decide))
      (fun x hx => ⟨Frame.new x DEFAULT_FLAGS, [], rfl, by
        simp [Frame.new, Frame.is_end_frame, is_flag_set, DEFAULT_FLAGS,
          END_DATA_STRUCTURE_FLAG]⟩)).2⟩

end Hazelcast
